import Mathlib

/-!
Formal model of the algorithmic core of the fastmail-tui repository:
the secure password generator (`services/password_generator.py`), the
mailbox ordering routine (`models/mailbox.py`), and the fuzzy search
scorer (`ui/widgets/search_modal.py`).

Strings are modelled as Lean `String` / `List Char`; Python's
`str.lower()` is modelled by `Char.toLower` (ASCII case folding, the
range relevant to the data handled here).  The cryptographically random
choices made by `secrets.choice` / `secrets.randbelow` are modelled by
explicit entropy parameters: an arbitrary index function `pick` reduced
modulo the alphabet size, and an arbitrary natural `r` reduced mod 100.
Every property proved below holds for all values of these parameters,
hence for every possible random outcome.
-/

namespace FastmailTui

/-! ### Password generator: `services/password_generator.py` -/

/-- Model of Python `string.ascii_lowercase`. -/
def ascii_lowercase : List Char := "abcdefghijklmnopqrstuvwxyz".toList

/-- Model of Python `string.ascii_uppercase`. -/
def ascii_uppercase : List Char := "ABCDEFGHIJKLMNOPQRSTUVWXYZ".toList

/-- Model of Python `string.digits`. -/
def string_digits : List Char := "0123456789".toList

/-- The fixed symbol set used by `generate_password`
(`"!@#$%^&*()-_=+[]{}|;:,.<>?"` in the source; braces written as hex
escapes). -/
def symbol_chars : List Char := "!@#$%^&*()-_=+[]\x7b\x7d|;:,.<>?".toList

/-- Module-level constant `AMBIGUOUS_CHARS = "0O1lI|"`. -/
def AMBIGUOUS_CHARS : List Char := "0O1lI|".toList

/-- Dataclass `PasswordOptions` with its field defaults. -/
structure PasswordOptions where
  length : Nat := 24
  include_uppercase : Bool := true
  include_lowercase : Bool := true
  include_digits : Bool := true
  include_symbols : Bool := true
  exclude_ambiguous : Bool := true
deriving Repr, DecidableEq

/-- The alphabet built by `generate_password` before the emptiness check:
class concatenation in source order (lowercase, uppercase, digits,
symbols), then the ambiguous-character filter when requested. -/
def buildChars (o : PasswordOptions) : List Char :=
  let chars :=
    (if o.include_lowercase then ascii_lowercase else []) ++
    (if o.include_uppercase then ascii_uppercase else []) ++
    (if o.include_digits then string_digits else []) ++
    (if o.include_symbols then symbol_chars else [])
  if o.exclude_ambiguous then
    chars.filter (fun c => !(AMBIGUOUS_CHARS.contains c))
  else chars

/-- The fallback alphabet `string.ascii_letters + string.digits` used when
the built alphabet is empty. -/
def fallback_chars : List Char := ascii_lowercase ++ ascii_uppercase ++ string_digits

/-- The alphabet `generate_password` actually samples from: the built
alphabet, or the fallback when the built one is empty (`if not chars`). -/
def effectiveChars (o : PasswordOptions) : List Char :=
  if buildChars o = [] then fallback_chars else buildChars o

/-- Model of `generate_password`: one `secrets.choice(chars)` per output
position, the random choice modelled by the entropy function `pick`
reduced modulo the alphabet size. -/
def generate_password (o : PasswordOptions) (pick : Nat → Nat) : List Char :=
  (List.range o.length).map
    (fun i => (effectiveChars o).getD (pick i % (effectiveChars o).length) 'a')

/-- The fixed word list of `generate_memorable_password`. -/
def word_list : List (List Char) :=
  (["apple", "banana", "cherry", "dragon", "eagle", "forest",
    "galaxy", "harbor", "island", "jungle", "koala", "lemon",
    "mango", "nebula", "ocean", "planet", "quartz", "river",
    "sunset", "thunder", "umbrella", "violet", "whisper", "xylophone",
    "yellow", "zenith", "anchor", "bridge", "castle", "diamond",
    "emerald", "falcon", "garden", "hunter", "indigo", "jasper",
    "kiwi", "lantern", "marble", "ninja", "orange", "phoenix",
    "quantum", "rainbow", "silver", "tiger", "ultra", "velvet",
    "willow", "xenon", "yacht", "zephyr", "alpine", "blazer",
    "cosmic", "delta", "echo", "frost", "glider", "horizon"]).map String.toList

/-- Model of `generate_memorable_password`: `num_words` uniformly random
words (entropy function `pick`, reduced mod the list length), then the
decimal numeral of `secrets.randbelow(100)` (entropy `r`, reduced mod
100), joined with `sep`. -/
def generate_memorable_password (num_words : Nat) (sep : List Char)
    (pick : Nat → Nat) (r : Nat) : List Char :=
  let selected := (List.range num_words).map
    (fun i => word_list.getD (pick i % word_list.length) [])
  let selected := selected ++ [(Nat.repr (r % 100)).toList]
  sep.intercalate selected

/-- Model of Python `str.split(sep)` for a single-character separator. -/
def pySplit (c : Char) (s : List Char) : List (List Char) := s.splitOn c

/-- Model of Python `string.punctuation`: the 32 ASCII punctuation
characters, code points 33-47, 58-64, 91-96 and 123-126. -/
def string_punctuation : List Char :=
  ((List.range' 33 15) ++ (List.range' 58 7) ++
   (List.range' 91 6) ++ (List.range' 123 4)).map Char.ofNat

/-- Result dictionary of `password_strength`. -/
structure StrengthReport where
  score : Nat
  max_score : Nat
  strength : String
  color : String
  length : Nat
  has_lowercase : Bool
  has_uppercase : Bool
  has_digits : Bool
  has_symbols : Bool
deriving Repr, DecidableEq

/-- Model of Python `str.islower()` on a single ASCII character. -/
def pyIsLower (c : Char) : Bool := 'a' ≤ c && c ≤ 'z'

/-- Model of Python `str.isupper()` on a single ASCII character. -/
def pyIsUpper (c : Char) : Bool := 'A' ≤ c && c ≤ 'Z'

/-- Model of Python `str.isdigit()` on a single ASCII character. -/
def pyIsDigit (c : Char) : Bool := '0' ≤ c && c ≤ '9'

/-- Model of `password_strength`: class detection (`islower` / `isupper` /
`isdigit` modelled on ASCII, symbols via `string.punctuation`), the
additive score, and the rating thresholds. -/
def password_strength (password : List Char) : StrengthReport :=
  let has_lower := password.any pyIsLower
  let has_upper := password.any pyIsUpper
  let has_digit := password.any pyIsDigit
  let has_symbol := password.any (fun c => string_punctuation.contains c)
  let length := password.length
  let score :=
    (if 8 ≤ length then 1 else 0) + (if 12 ≤ length then 1 else 0) +
    (if 16 ≤ length then 1 else 0) + (if 24 ≤ length then 1 else 0) +
    (if has_lower then 1 else 0) + (if has_upper then 1 else 0) +
    (if has_digit then 1 else 0) + (if has_symbol then 1 else 0)
  let strength :=
    if 7 ≤ score then "strong"
    else if 5 ≤ score then "good"
    else if 3 ≤ score then "moderate"
    else "weak"
  let color :=
    if 7 ≤ score then "#00FF88"
    else if 5 ≤ score then "#00D4FF"
    else if 3 ≤ score then "#FFB800"
    else "#FF4444"
  { score := score, max_score := 8, strength := strength, color := color,
    length := length, has_lowercase := has_lower, has_uppercase := has_upper,
    has_digits := has_digit, has_symbols := has_symbol }

/-! ### Mailbox ordering: `models/mailbox.py` -/

/-- Dataclass `Mailbox`, restricted to the fields read by
`sort_mailboxes` (`name`, `role`, `sort_order`) plus the identifier; the
counter fields play no part in ordering. -/
structure Mailbox where
  id : String
  name : String
  role : Option String := none
  sort_order : Int := 0
deriving Repr, DecidableEq

/-- Model of Python `str.lower()` (ASCII case folding). -/
def lowerStr (s : String) : String := String.mk (s.data.map Char.toLower)

/-- The `role_order` dictionary lookup of `sort_mailboxes`, including the
`.get(..., 99)` default for unknown roles; the argument is the already
lower-cased role. -/
def role_order (r : String) : Int :=
  if r = "inbox" then 0
  else if r = "drafts" then 1
  else if r = "sent" then 2
  else if r = "archive" then 3
  else if r = "spam" then 4
  else if r = "junk" then 4
  else if r = "trash" then 5
  else 99

/-- Sort keys are lexicographically ordered triples
(tier, rank-or-sort_order, lower-cased name as a character list, ordered
lexicographically by code point as in Python). -/
abbrev SortKey := Lex (Nat × Lex (Int × List Char))

/-- The `sort_key` closure of `sort_mailboxes`.  Python's `if m.role:`
is truthiness: an absent role and an empty-string role both take the
second branch. -/
def sort_key (m : Mailbox) : SortKey :=
  match m.role with
  | some r =>
    if r = "" then toLex (1, toLex (m.sort_order, (lowerStr m.name).data))
    else toLex (0, toLex (role_order (lowerStr r), (lowerStr m.name).data))
  | none => toLex (1, toLex (m.sort_order, (lowerStr m.name).data))

/-- Boolean key comparison handed to the stable sort. -/
def mailboxLe (a b : Mailbox) : Bool := decide (sort_key a ≤ sort_key b)

/-- Model of `sort_mailboxes`: Python's `sorted` is a stable sort by the
key, modelled by `List.mergeSort` (stable) on the key comparison. -/
def sort_mailboxes (ms : List Mailbox) : List Mailbox :=
  ms.mergeSort mailboxLe

/-- Written from the claim's words, for comparison with `sort_key`: rank
of a (lower-cased) role per the claim: inbox < drafts < sent < archive <
(spam = junk) < trash, and any other role below all canonical roles. -/
def claimRank (r : String) : Nat :=
  if r = "inbox" then 0
  else if r = "drafts" then 1
  else if r = "sent" then 2
  else if r = "archive" then 3
  else if r = "spam" then 4
  else if r = "junk" then 4
  else if r = "trash" then 5
  else 6

/-- Written from the claim's words, for comparison with `sort_key`: the
two-tier key of claim C3 (as amended): Tier 0 for a non-empty role with
the claim's role ranks and a case-insensitive-name tie-break, Tier 1 for
the rest ordered by `sort_order` then case-insensitive name. -/
def claimKey (m : Mailbox) : SortKey :=
  match m.role with
  | some r =>
    if r = "" then toLex (1, toLex (m.sort_order, (lowerStr m.name).data))
    else toLex (0, toLex ((claimRank (lowerStr r) : Int), (lowerStr m.name).data))
  | none => toLex (1, toLex (m.sort_order, (lowerStr m.name).data))

/-! ### Fuzzy search scoring: `ui/widgets/search_modal.py` -/

/-- The `Email` model, restricted to the four fields read by the scorer
(spec section 3: "Email (subset relevant here)").  Fields are kept as
character lists. -/
structure Email where
  subject : List Char
  from_display : List Char
  from_email : List Char
  preview : List Char
deriving Repr, DecidableEq, Inhabited

/-- Model of `SearchModal._calculate_score`: weighted substring
containment against the four lower-cased fields, the query being already
lower-cased by the caller.  Python `q in s` is `q <:+: s` (contiguous
substring) and `s.startswith(q)` is `q <+: s`. -/
def calculate_score (query : List Char) (e : Email) : Nat :=
  let subject_lower := e.subject.map Char.toLower
  let s1 : Nat :=
    if query <:+: subject_lower then
      100 + (if query <+: subject_lower then 50 else 0)
    else 0
  let from_lower := e.from_display.map Char.toLower
  let s2 : Nat :=
    if query <:+: from_lower then
      80 + (if query <+: from_lower then 40 else 0)
    else 0
  let from_email_lower := e.from_email.map Char.toLower
  let s3 : Nat := if query <:+: from_email_lower then 60 else 0
  let preview_lower := e.preview.map Char.toLower
  s1 + s2 + s3 + (if query <:+: preview_lower then 30 else 0)

/-- Comparison used for the descending stable sort of scored candidates
(`scored.sort(key=..., reverse=True)`: stable, ties keep input order). -/
def scoreGe (a b : Nat × Email) : Bool := decide (b.1 ≤ a.1)

/-- The scored candidate list built by the loop of `on_input_changed`:
every email paired with its score, keeping only positive scores. -/
def scoredPre (query : List Char) (emails : List Email) : List (Nat × Email) :=
  emails.filterMap (fun e =>
    let s := calculate_score query e
    if 0 < s then some (s, e) else none)

/-- The ranking pipeline of `on_input_changed` before truncation: the
scored candidates stable-sorted by score descending (`scored.sort` with
`reverse=True` keeps equal-score candidates in input order, as does
`List.mergeSort`). -/
def rankScored (query : List Char) (emails : List Email) : List (Nat × Email) :=
  (scoredPre query emails).mergeSort scoreGe

/-- The full ranked candidate list (no truncation). -/
def rankFull (query : List Char) (emails : List Email) : List Email :=
  (rankScored query emails).map (fun p => p.2)

/-- Model of the ranking performed by `on_input_changed` for a non-empty
query: score, discard zero scores, stable-sort descending, truncate.
The widget instantiates the truncation limit at 50 (`scored[:50]`); the
spec's interface `rank(query, emails, limit)` keeps it a parameter. -/
def rank (query : List Char) (emails : List Email) (limit : Nat) : List Email :=
  ((rankScored query emails).take limit).map (fun p => p.2)

/-- Written from the claim's words, for comparison with
`password_strength`: the number of satisfied length thresholds among
8, 12, 16, 24 plus the number of character classes present. -/
def claimStrengthScore (p : List Char) : Nat :=
  (([8, 12, 16, 24] : List Nat).filter (fun t => t ≤ p.length)).length +
  (([p.any pyIsLower, p.any pyIsUpper, p.any pyIsDigit,
     p.any (fun c => string_punctuation.contains c)] : List Bool).filter id).length

/-- The canonical role vocabulary of the spec (lower-cased). -/
def canonicalRoles : List String :=
  ["inbox", "drafts", "sent", "archive", "spam", "junk", "trash"]

/-! ### Helper lemmas: password generator -/

theorem buildChars_eq_nil_iff (o : PasswordOptions) :
    buildChars o = [] ↔
      (o.include_lowercase = false ∧ o.include_uppercase = false ∧
       o.include_digits = false ∧ o.include_symbols = false) := by
  rcases o with ⟨n, u, l, d, s, e⟩
  cases u <;> cases l <;> cases d <;> cases s <;> cases e <;>
    simp +decide [buildChars]

theorem effectiveChars_ne_nil (o : PasswordOptions) : effectiveChars o ≠ [] := by
  unfold effectiveChars
  split
  · decide
  · assumption

theorem effectiveChars_length_pos (o : PasswordOptions) :
    0 < (effectiveChars o).length :=
  List.length_pos.mpr (effectiveChars_ne_nil o)

theorem mem_effectiveChars_of_mem_generate (o : PasswordOptions) (pick : Nat → Nat)
    (c : Char) (h : c ∈ generate_password o pick) : c ∈ effectiveChars o := by
  simp only [generate_password, List.mem_map, List.mem_range] at h
  obtain ⟨i, -, rfl⟩ := h
  have hlt : pick i % (effectiveChars o).length < (effectiveChars o).length :=
    Nat.mod_lt _ (effectiveChars_length_pos o)
  rw [List.getD_eq_getElem?_getD, List.getElem?_eq_getElem hlt]
  exact List.getElem_mem hlt

/-! ### Claims C1, C7, C8: password generation -/

/-- Claim C1 as stated is false on the code: with `exclude_ambiguous =
true` but all four character-class flags disabled and `length = 1`, the
generator falls back to the unfiltered letters-plus-digits alphabet, and
the random outcome selecting index 52 of that alphabet produces the
password `"0"`, which consists of an ambiguous character. -/
theorem claim_C1_counterexample :
    (⟨1, false, false, false, false, true⟩ : PasswordOptions).exclude_ambiguous = true ∧
    (⟨1, false, false, false, false, true⟩ : PasswordOptions).length = 1 ∧
    '0' ∈ generate_password ⟨1, false, false, false, false, true⟩ (fun _ => 52) ∧
    '0' ∈ AMBIGUOUS_CHARS := by
  decide

/-- Claim C1, amended: for every `PasswordOptions` with
`exclude_ambiguous = true` and at least one of the four character-class
flags enabled, no character of the generated password is one of the
ambiguous characters `0 O 1 l I |`, for every random outcome. -/
theorem claim_C1 (o : PasswordOptions) (pick : Nat → Nat)
    (hex : o.exclude_ambiguous = true)
    (hflag : o.include_lowercase = true ∨ o.include_uppercase = true ∨
             o.include_digits = true ∨ o.include_symbols = true) :
    ∀ c ∈ generate_password o pick, c ∉ AMBIGUOUS_CHARS := by
  intro c hc
  have hne : buildChars o ≠ [] := by
    rw [Ne, buildChars_eq_nil_iff]
    rcases hflag with h | h | h | h <;> simp [h]
  have heff : effectiveChars o = buildChars o := by
    unfold effectiveChars
    rw [if_neg hne]
  have hmem : c ∈ buildChars o := heff ▸ mem_effectiveChars_of_mem_generate o pick c hc
  unfold buildChars at hmem
  rw [hex] at hmem
  simp only [if_pos] at hmem
  have := (List.mem_filter.mp hmem).2
  simpa using this

/-- Witness for claim C1 at the default options and a concrete random
outcome. -/
theorem claim_C1_witness :
    ((⟨24, true, true, true, true, true⟩ : PasswordOptions).exclude_ambiguous = true) ∧
    (∀ c ∈ generate_password ⟨24, true, true, true, true, true⟩ (fun i => i), c ∉ AMBIGUOUS_CHARS) :=
  ⟨by decide, claim_C1 ⟨24, true, true, true, true, true⟩ (fun i => i) (by decide) (by decide)⟩

/-- Claim C7: for every options value with positive requested length and
every random outcome, the generated password has exactly the requested
length and each of its characters belongs to the effective alphabet. -/
theorem claim_C7 (o : PasswordOptions) (pick : Nat → Nat) (h : 1 ≤ o.length) :
    (generate_password o pick).length = o.length ∧
    ∀ c ∈ generate_password o pick, c ∈ effectiveChars o := by
  refine ⟨?_, fun c hc => mem_effectiveChars_of_mem_generate o pick c hc⟩
  simp [generate_password]

/-- Witness for claim C7 at the default options. -/
theorem claim_C7_witness :
    1 ≤ (⟨24, true, true, true, true, true⟩ : PasswordOptions).length ∧
    ((generate_password ⟨24, true, true, true, true, true⟩ (fun i => i)).length =
      (⟨24, true, true, true, true, true⟩ : PasswordOptions).length ∧
     ∀ c ∈ generate_password ⟨24, true, true, true, true, true⟩ (fun i => i),
       c ∈ effectiveChars ⟨24, true, true, true, true, true⟩) :=
  ⟨by decide, claim_C7 ⟨24, true, true, true, true, true⟩ (fun i => i) (by decide)⟩

/-- Claim C8: the built alphabet (after ambiguous-character exclusion)
is empty exactly when all four character-class flags are disabled; when a
class is enabled the generator samples the built alphabet, and when the
built alphabet is empty it samples the fallback alphabet. -/
theorem claim_C8 (o : PasswordOptions) :
    (buildChars o = [] ↔
      (o.include_lowercase = false ∧ o.include_uppercase = false ∧
       o.include_digits = false ∧ o.include_symbols = false)) ∧
    ((o.include_lowercase = true ∨ o.include_uppercase = true ∨
      o.include_digits = true ∨ o.include_symbols = true) →
      effectiveChars o = buildChars o) ∧
    (buildChars o = [] → effectiveChars o = fallback_chars) := by
  refine ⟨buildChars_eq_nil_iff o, fun hflag => ?_, fun hnil => ?_⟩
  · have hne : buildChars o ≠ [] := by
      rw [Ne, buildChars_eq_nil_iff]
      rcases hflag with h | h | h | h <;> simp [h]
    unfold effectiveChars
    rw [if_neg hne]
  · unfold effectiveChars
    rw [if_pos hnil]

/-- Witness for claim C8 at a concrete options value with one class
enabled. -/
theorem claim_C8_witness :
    ((buildChars ⟨8, false, true, false, false, true⟩ = [] ↔
      ((true : Bool) = false ∧ (false : Bool) = false ∧
       (false : Bool) = false ∧ (false : Bool) = false)) ∧
     (((true : Bool) = true ∨ (false : Bool) = true ∨
       (false : Bool) = true ∨ (false : Bool) = true) →
       effectiveChars ⟨8, false, true, false, false, true⟩ =
         buildChars ⟨8, false, true, false, false, true⟩) ∧
     (buildChars ⟨8, false, true, false, false, true⟩ = [] →
       effectiveChars ⟨8, false, true, false, false, true⟩ = fallback_chars)) :=
  claim_C8 ⟨8, false, true, false, false, true⟩

/-! ### Claim C6: password strength scoring -/

theorem filter_id_four (a b c d : Bool) :
    (([a, b, c, d] : List Bool).filter id).length =
      (if a then 1 else 0) + (if b then 1 else 0) +
      (if c then 1 else 0) + (if d then 1 else 0) := by
  cases a <;> cases b <;> cases c <;> cases d <;> decide

theorem filter_thresholds (n : Nat) :
    (([8, 12, 16, 24] : List Nat).filter (fun t => t ≤ n)).length =
      (if 8 ≤ n then 1 else 0) + (if 12 ≤ n then 1 else 0) +
      (if 16 ≤ n then 1 else 0) + (if 24 ≤ n then 1 else 0) := by
  by_cases h8 : 8 ≤ n <;> by_cases h12 : 12 ≤ n <;>
    by_cases h16 : 16 ≤ n <;> by_cases h24 : 24 ≤ n <;>
    simp [List.filter, h8, h12, h16, h24]

/-- Claim C6: for every input string, `password_strength` scores one
point per satisfied length threshold among 8, 12, 16, 24 plus one point
per character class present, the score is at most the fixed
`max_score = 8`, and the strength label follows the 7/5/3 cutoffs. -/
theorem claim_C6 (p : List Char) :
    (password_strength p).score = claimStrengthScore p ∧
    (password_strength p).max_score = 8 ∧
    (password_strength p).score ≤ 8 ∧
    (password_strength p).strength =
      (if 7 ≤ (password_strength p).score then "strong"
       else if 5 ≤ (password_strength p).score then "good"
       else if 3 ≤ (password_strength p).score then "moderate"
       else "weak") := by
  refine ⟨?_, rfl, ?_, ?_⟩
  · simp only [password_strength, claimStrengthScore, filter_id_four, filter_thresholds]
    omega
  · simp only [password_strength]
    split_ifs <;> omega
  · rfl

/-- Witness for claim C6 at the string `"abc"`. -/
theorem claim_C6_witness :
    (password_strength ['a', 'b', 'c']).score = claimStrengthScore ['a', 'b', 'c'] ∧
    (password_strength ['a', 'b', 'c']).max_score = 8 ∧
    (password_strength ['a', 'b', 'c']).score ≤ 8 ∧
    (password_strength ['a', 'b', 'c']).strength =
      (if 7 ≤ (password_strength ['a', 'b', 'c']).score then "strong"
       else if 5 ≤ (password_strength ['a', 'b', 'c']).score then "good"
       else if 3 ≤ (password_strength ['a', 'b', 'c']).score then "moderate"
       else "weak") :=
  claim_C6 ['a', 'b', 'c']

/-! ### Claim C9: memorable passwords -/

theorem numeral_fact : ∀ m : Nat, m < 100 →
    ((Nat.repr m).toList.length = 1 ∨ (Nat.repr m).toList.length = 2) ∧
    (∀ ch ∈ (Nat.repr m).toList, ch.isDigit = true) := by decide

/-- Claim C9 as stated is false on the code: it quantifies over every
separator string, but a separator occurring inside a selected word splits
that word.  With `num_words = 1`, separator `"a"`, the random outcome
selecting the word `"apple"` and trailing number `0`, the produced string
is `"applea0"`, which splits on `"a"` into 3 segments, not
`num_words + 1 = 2`. -/
theorem claim_C9_counterexample :
    generate_memorable_password 1 ['a'] (fun _ => 0) 0 =
      ['a', 'p', 'p', 'l', 'e', 'a', '0'] ∧
    (pySplit 'a' (generate_memorable_password 1 ['a'] (fun _ => 0) 0)).length = 3 := by
  decide

/-- Claim C9, amended: for every positive `num_words` and every
single-character separator that occurs in no word of the word list and is
not a decimal digit (such as the default `"-"`), the result splits on the
separator into exactly `num_words + 1` segments, the trailing segment
being the decimal numeral of the drawn number below 100: one or two
characters, all digits (hence no leading-zero padding). -/
theorem claim_C9 (k : Nat) (c : Char) (pick : Nat → Nat) (r : Nat)
    (hk : 1 ≤ k)
    (hw : ∀ w ∈ word_list, c ∉ w)
    (hd : c.isDigit = false) :
    (pySplit c (generate_memorable_password k [c] pick r)).length = k + 1 ∧
    (pySplit c (generate_memorable_password k [c] pick r)).getLast? =
      some (Nat.repr (r % 100)).toList ∧
    ((Nat.repr (r % 100)).toList.length = 1 ∨ (Nat.repr (r % 100)).toList.length = 2) ∧
    (∀ ch ∈ (Nat.repr (r % 100)).toList, ch.isDigit = true) := by
  have hnum := numeral_fact (r % 100) (Nat.mod_lt r (by norm_num))
  have hsegs :
      generate_memorable_password k [c] pick r =
        [c].intercalate
          (((List.range k).map (fun i => word_list.getD (pick i % word_list.length) [])) ++
            [(Nat.repr (r % 100)).toList]) := rfl
  have hx : ∀ l ∈ ((List.range k).map
        (fun i => word_list.getD (pick i % word_list.length) [])) ++
        [(Nat.repr (r % 100)).toList], c ∉ l := by
    intro l hl
    rcases List.mem_append.mp hl with h | h
    · obtain ⟨i, -, rfl⟩ := List.mem_map.mp h
      by_cases hlt : pick i % word_list.length < word_list.length
      · rw [List.getD_eq_getElem?_getD, List.getElem?_eq_getElem hlt]
        exact hw _ (List.getElem_mem hlt)
      · rw [List.getD_eq_getElem?_getD, List.getElem?_eq_none (by omega)]
        simp
    · rw [List.mem_singleton.mp h]
      intro hc
      exact absurd (hnum.2 c hc) (by simp [hd])
  have hsplit : pySplit c (generate_memorable_password k [c] pick r) =
      ((List.range k).map (fun i => word_list.getD (pick i % word_list.length) [])) ++
        [(Nat.repr (r % 100)).toList] := by
    rw [show pySplit c (generate_memorable_password k [c] pick r) =
          (generate_memorable_password k [c] pick r).splitOn c from rfl, hsegs]
    exact List.splitOn_intercalate _ c hx (by simp)
  refine ⟨?_, ?_, hnum.1, hnum.2⟩
  · rw [hsplit]; simp
  · rw [hsplit]; exact List.getLast?_concat _

/-- Witness for claim C9 at the default separator, four words and a
concrete random outcome. -/
theorem claim_C9_witness :
    (1 ≤ 4 ∧ (∀ w ∈ word_list, '-' ∉ w) ∧ Char.isDigit '-' = false) ∧
    ((pySplit '-' (generate_memorable_password 4 ['-'] (fun _ => 0) 7)).length = 4 + 1 ∧
     (pySplit '-' (generate_memorable_password 4 ['-'] (fun _ => 0) 7)).getLast? =
       some (Nat.repr (7 % 100)).toList ∧
     ((Nat.repr (7 % 100)).toList.length = 1 ∨ (Nat.repr (7 % 100)).toList.length = 2) ∧
     (∀ ch ∈ (Nat.repr (7 % 100)).toList, ch.isDigit = true)) :=
  ⟨⟨by decide, by decide, by decide⟩,
    claim_C9 4 '-' (fun _ => 0) 7 (by decide) (by decide) (by decide)⟩

/-! ### Claims C4 and C10: search scoring -/

theorem score_piece (q s : List Char) (a b : Nat) :
    (if q <:+: s then a + (if q <+: s then b else 0) else 0) =
      (if q <:+: s then a else 0) + (if q <+: s then b else 0) := by
  by_cases hi : q <:+: s
  · simp [hi]
  · have hp : ¬ q <+: s := fun h => hi ( List.IsPrefix.isInfix h)
    simp [hi, hp]

/-- Claim C4: for every non-empty query and every email, the score is
the stacked sum of the containment weights (100/80/60/30) and prefix
bonuses (50/40) over the four lower-cased fields, and it is zero exactly
when no field contains the query. -/
theorem claim_C4 (q : List Char) (e : Email) (hq : q ≠ []) :
    calculate_score q e =
      (if q <:+: e.subject.map Char.toLower then 100 else 0) +
      (if q <+: e.subject.map Char.toLower then 50 else 0) +
      (if q <:+: e.from_display.map Char.toLower then 80 else 0) +
      (if q <+: e.from_display.map Char.toLower then 40 else 0) +
      (if q <:+: e.from_email.map Char.toLower then 60 else 0) +
      (if q <:+: e.preview.map Char.toLower then 30 else 0) ∧
    (calculate_score q e = 0 ↔
      (¬ q <:+: e.subject.map Char.toLower ∧
       ¬ q <:+: e.from_display.map Char.toLower ∧
       ¬ q <:+: e.from_email.map Char.toLower ∧
       ¬ q <:+: e.preview.map Char.toLower)) := by
  constructor
  · simp only [calculate_score, score_piece]
    omega
  · simp only [calculate_score]
    by_cases h1 : q <:+: e.subject.map Char.toLower <;>
    by_cases h2 : q <:+: e.from_display.map Char.toLower <;>
    by_cases h3 : q <:+: e.from_email.map Char.toLower <;>
    by_cases h4 : q <:+: e.preview.map Char.toLower <;>
    simp [h1, h2, h3, h4]

/-- Witness for claim C4 at a concrete query and email. -/
theorem claim_C4_witness :
    (['b', 'o'] : List Char) ≠ [] ∧
    (calculate_score ['b', 'o'] ⟨['B', 'o', 'b'], ['B', 'o', 'b'], [], []⟩ =
      (if ['b', 'o'] <:+: (['B', 'o', 'b'] : List Char).map Char.toLower then 100 else 0) +
      (if ['b', 'o'] <+: (['B', 'o', 'b'] : List Char).map Char.toLower then 50 else 0) +
      (if ['b', 'o'] <:+: (['B', 'o', 'b'] : List Char).map Char.toLower then 80 else 0) +
      (if ['b', 'o'] <+: (['B', 'o', 'b'] : List Char).map Char.toLower then 40 else 0) +
      (if ['b', 'o'] <:+: ([] : List Char).map Char.toLower then 60 else 0) +
      (if ['b', 'o'] <:+: ([] : List Char).map Char.toLower then 30 else 0) ∧
     (calculate_score ['b', 'o'] ⟨['B', 'o', 'b'], ['B', 'o', 'b'], [], []⟩ = 0 ↔
       (¬ (['b', 'o'] : List Char) <:+: (['B', 'o', 'b'] : List Char).map Char.toLower ∧
        ¬ (['b', 'o'] : List Char) <:+: (['B', 'o', 'b'] : List Char).map Char.toLower ∧
        ¬ (['b', 'o'] : List Char) <:+: ([] : List Char).map Char.toLower ∧
        ¬ (['b', 'o'] : List Char) <:+: ([] : List Char).map Char.toLower))) :=
  ⟨by decide, claim_C4 ['b', 'o'] ⟨['B', 'o', 'b'], ['B', 'o', 'b'], [], []⟩ (by decide)⟩

/-- Claim C10: the scorer is total on the empty query and returns the
full sum 360 for every email (every field contains and starts with the
empty string). -/
theorem claim_C10 (e : Email) : calculate_score [] e = 360 := by
  simp [calculate_score]

/-! ### Claim C5: search ranking -/

theorem scoreGe_trans : ∀ a b c : Nat × Email, scoreGe a b → scoreGe b c → scoreGe a c := by
  intro a b c h1 h2
  simp only [scoreGe, decide_eq_true_eq] at *
  omega

theorem scoreGe_total : ∀ a b : Nat × Email, scoreGe a b || scoreGe b a := by
  intro a b
  simp only [scoreGe, Bool.or_eq_true, decide_eq_true_eq]
  omega

theorem mem_scoredPre (q : List Char) (es : List Email) {p : Nat × Email}
    (h : p ∈ scoredPre q es) :
    p.1 = calculate_score q p.2 ∧ 0 < p.1 ∧ p.2 ∈ es := by
  simp only [scoredPre, List.mem_filterMap] at h
  obtain ⟨e, he, hf⟩ := h
  split at hf
  · cases hf
    simp_all
  · cases hf

theorem scoredPre_map_snd (q : List Char) (es : List Email) :
    (scoredPre q es).map (fun p => p.2) =
      es.filter (fun e => 0 < calculate_score q e) := by
  induction es with
  | nil => rfl
  | cons a t ih =>
    by_cases h : 0 < calculate_score q a <;>
      simp [scoredPre, List.filterMap_cons, List.filter_cons, h] <;>
      simpa [scoredPre] using ih

theorem mem_rankScored (q : List Char) (es : List Email) {p : Nat × Email}
    (h : p ∈ rankScored q es) : p ∈ scoredPre q es :=
  List.mem_mergeSort.mp h

/-- Claim C5: for every non-empty query, the ranking returns at most
`limit` emails, all with positive score; it is the truncation of the full
ranked list, which consists of exactly the positive-score emails
(permutation of the filtered input), is sorted by score descending, and
is stable: for each score value, the emails carrying it appear in their
input order. -/
theorem claim_C5 (q : List Char) (es : List Email) (lim : Nat) (hq : q ≠ []) :
    (rank q es lim).length ≤ lim ∧
    (∀ e ∈ rank q es lim, 0 < calculate_score q e) ∧
    rank q es lim = (rankFull q es).take lim ∧
    (rankFull q es).Perm (es.filter (fun e => 0 < calculate_score q e)) ∧
    (rankFull q es).Pairwise (fun a b => calculate_score q b ≤ calculate_score q a) ∧
    (∀ s : Nat, (rankFull q es).filter (fun e => calculate_score q e = s) =
      (es.filter (fun e => 0 < calculate_score q e)).filter
        (fun e => calculate_score q e = s)) := by
  have hperm : (rankScored q es).Perm (scoredPre q es) := List.mergeSort_perm _ _
  refine ⟨?_, ?_, ?_, ?_, ?_, ?_⟩
  · simp only [rank, List.length_map]
    exact List.length_take_le _ _
  · intro e he
    simp only [rank, List.mem_map] at he
    obtain ⟨p, hp, rfl⟩ := he
    have hp' := mem_rankScored q es (List.mem_of_mem_take hp)
    have := mem_scoredPre q es hp'
    omega
  · simp only [rank, rankFull, List.map_take]
  · have h := List.Perm.map (fun p : Nat × Email => p.2) hperm
    rw [scoredPre_map_snd] at h
    exact h
  · have hsorted := List.sorted_mergeSort scoreGe_trans scoreGe_total (scoredPre q es)
    refine List.pairwise_map.mpr (hsorted.imp_of_mem ?_)
    intro a b ha hb hab
    have ha' := mem_scoredPre q es (List.mem_mergeSort.mp ha)
    have hb' := mem_scoredPre q es (List.mem_mergeSort.mp hb)
    simp only [scoreGe, decide_eq_true_eq] at hab
    omega
  · intro s
    have hcpair : ((scoredPre q es).filter (fun p => p.1 = s)).Pairwise
        (fun a b => scoreGe a b) := by
      apply List.pairwise_of_forall_mem_list
      intro a ha b hb
      have ha' := (List.mem_filter.mp ha).2
      have hb' := (List.mem_filter.mp hb).2
      simp only [decide_eq_true_eq] at ha' hb'
      simp [scoreGe, ha', hb']
    have hcsub : List.Sublist ((scoredPre q es).filter (fun p => p.1 = s)) (rankScored q es) :=
      List.sublist_mergeSort scoreGe_trans scoreGe_total hcpair (List.filter_sublist _)
    have hfc : ((scoredPre q es).filter (fun p => p.1 = s)).filter
        (fun p => p.1 = s) = (scoredPre q es).filter (fun p => p.1 = s) :=
      List.filter_eq_self.mpr (fun a ha => (List.mem_filter.mp ha).2)
    have hd : List.Sublist ((scoredPre q es).filter (fun p => p.1 = s))
        ((rankScored q es).filter (fun p => p.1 = s)) := by
      have := hcsub.filter (fun p => p.1 = s)
      rwa [hfc] at this
    have hperm2 : ((rankScored q es).filter (fun p => p.1 = s)).Perm
        ((scoredPre q es).filter (fun p => p.1 = s)) := hperm.filter _
    have heq : (scoredPre q es).filter (fun p => p.1 = s) =
        (rankScored q es).filter (fun p => p.1 = s) :=
      hd.eq_of_length hperm2.length_eq.symm
    have hcongr1 : (rankScored q es).filter
          ((fun e => calculate_score q e = s) ∘ (fun p : Nat × Email => p.2)) =
        (rankScored q es).filter (fun p => p.1 = s) := by
      apply List.filter_congr
      intro p hp
      have := (mem_scoredPre q es (mem_rankScored q es hp)).1
      simp [Function.comp, ← this]
    have hcongr2 : (scoredPre q es).filter
          ((fun e => calculate_score q e = s) ∘ (fun p : Nat × Email => p.2)) =
        (scoredPre q es).filter (fun p => p.1 = s) := by
      apply List.filter_congr
      intro p hp
      have := (mem_scoredPre q es hp).1
      simp [Function.comp, ← this]
    calc (rankFull q es).filter (fun e => calculate_score q e = s)
        = ((rankScored q es).filter
            ((fun e => calculate_score q e = s) ∘ (fun p : Nat × Email => p.2))).map
              (fun p => p.2) := List.filter_map _ _
      _ = ((scoredPre q es).filter (fun p => p.1 = s)).map (fun p => p.2) := by
            rw [hcongr1, ← heq]
      _ = ((scoredPre q es).filter
            ((fun e => calculate_score q e = s) ∘ (fun p : Nat × Email => p.2))).map
              (fun p => p.2) := by rw [hcongr2]
      _ = ((scoredPre q es).map (fun p => p.2)).filter
            (fun e => calculate_score q e = s) := (List.filter_map _ _).symm
      _ = (es.filter (fun e => 0 < calculate_score q e)).filter
            (fun e => calculate_score q e = s) := by rw [scoredPre_map_snd]

/-- Witness for claim C5 at a concrete query, email list and limit. -/
theorem claim_C5_witness :
    (['i'] : List Char) ≠ [] ∧
    ((rank ['i'] [⟨['x'], [], [], []⟩, ⟨['i'], [], [], []⟩] 1).length ≤ 1 ∧
     (∀ e ∈ rank ['i'] [⟨['x'], [], [], []⟩, ⟨['i'], [], [], []⟩] 1,
       0 < calculate_score ['i'] e) ∧
     rank ['i'] [⟨['x'], [], [], []⟩, ⟨['i'], [], [], []⟩] 1 =
       (rankFull ['i'] [⟨['x'], [], [], []⟩, ⟨['i'], [], [], []⟩]).take 1 ∧
     (rankFull ['i'] [⟨['x'], [], [], []⟩, ⟨['i'], [], [], []⟩]).Perm
       (([⟨['x'], [], [], []⟩, ⟨['i'], [], [], []⟩] : List Email).filter
         (fun e => 0 < calculate_score ['i'] e)) ∧
     (rankFull ['i'] [⟨['x'], [], [], []⟩, ⟨['i'], [], [], []⟩]).Pairwise
       (fun a b => calculate_score ['i'] b ≤ calculate_score ['i'] a) ∧
     (∀ s : Nat,
       (rankFull ['i'] [⟨['x'], [], [], []⟩, ⟨['i'], [], [], []⟩]).filter
         (fun e => calculate_score ['i'] e = s) =
       (([⟨['x'], [], [], []⟩, ⟨['i'], [], [], []⟩] : List Email).filter
         (fun e => 0 < calculate_score ['i'] e)).filter
           (fun e => calculate_score ['i'] e = s))) :=
  ⟨by decide, claim_C5 ['i'] [⟨['x'], [], [], []⟩, ⟨['i'], [], [], []⟩] 1 (by decide)⟩

/-! ### Helper lemmas: mailbox ordering -/

theorem mailboxLe_trans : ∀ a b c : Mailbox, mailboxLe a b → mailboxLe b c → mailboxLe a c := by
  intro a b c h1 h2
  simp only [mailboxLe, decide_eq_true_eq] at *
  exact le_trans h1 h2

theorem mailboxLe_total : ∀ a b : Mailbox, mailboxLe a b || mailboxLe b a := by
  intro a b
  simp only [mailboxLe, Bool.or_eq_true, decide_eq_true_eq]
  exact le_total _ _

theorem role_order_characterization (x : String) :
    (claimRank x < 6 ∧ role_order x = claimRank x) ∨
    (claimRank x = 6 ∧ role_order x = 99) := by
  unfold claimRank role_order
  split_ifs <;> omega

theorem claimRank_cast_lt (x y : String) :
    ((claimRank x : Int) < (claimRank y : Int)) ↔ role_order x < role_order y := by
  rcases role_order_characterization x with ⟨hx1, hx2⟩ | ⟨hx1, hx2⟩ <;>
    rcases role_order_characterization y with ⟨hy1, hy2⟩ | ⟨hy1, hy2⟩ <;>
    omega

theorem claimRank_cast_eq (x y : String) :
    ((claimRank x : Int) = (claimRank y : Int)) ↔ role_order x = role_order y := by
  rcases role_order_characterization x with ⟨hx1, hx2⟩ | ⟨hx1, hx2⟩ <;>
    rcases role_order_characterization y with ⟨hy1, hy2⟩ | ⟨hy1, hy2⟩ <;>
    omega

theorem lex_zero_le_one (x y : Lex (Int × List Char)) :
    toLex ((0 : Nat), x) ≤ toLex ((1 : Nat), y) := by
  rw [Prod.Lex.le_iff]
  left
  omega

theorem lex_one_not_le_zero (x y : Lex (Int × List Char)) :
    ¬ toLex ((1 : Nat), x) ≤ toLex ((0 : Nat), y) := by
  rw [Prod.Lex.le_iff]
  rintro (h | ⟨h, -⟩) <;> omega

theorem lex_same_fst_le (t : Nat) (x y : Lex (Int × List Char)) :
    toLex (t, x) ≤ toLex (t, y) ↔ x ≤ y := by
  rw [Prod.Lex.le_iff]
  simp

theorem claimKey_le_iff (a b : Mailbox) :
    claimKey a ≤ claimKey b ↔ sort_key a ≤ sort_key b := by
  unfold claimKey sort_key
  rcases a.role with _ | ra <;> rcases b.role with _ | rb
  · exact Iff.rfl
  · by_cases hrb : rb = ""
    · simp only [if_pos hrb]
    · simp only [if_neg hrb]
      exact iff_of_false (lex_one_not_le_zero _ _) (lex_one_not_le_zero _ _)
  · by_cases hra : ra = ""
    · simp only [if_pos hra]
    · simp only [if_neg hra]
      exact iff_of_true (lex_zero_le_one _ _) (lex_zero_le_one _ _)
  · by_cases hra : ra = "" <;> by_cases hrb : rb = ""
    · simp only [if_pos hra, if_pos hrb]
    · simp only [if_pos hra, if_neg hrb]
      exact iff_of_false (lex_one_not_le_zero _ _) (lex_one_not_le_zero _ _)
    · simp only [if_neg hra, if_pos hrb]
      exact iff_of_true (lex_zero_le_one _ _) (lex_zero_le_one _ _)
    · simp only [if_neg hra, if_neg hrb]
      rw [lex_same_fst_le, lex_same_fst_le, Prod.Lex.le_iff, Prod.Lex.le_iff]
      rw [claimRank_cast_lt, claimRank_cast_eq]

/-! ### Claims C2 and C3: mailbox ordering -/

/-- Claim C2 as stated is false on the code: a present, non-empty,
non-canonical role (here `"label"`) is sorted into Tier 0 with rank 99,
not as if the role were absent.  Mailbox `"z"` with role `"label"` sorts
before the role-less mailbox `"a"`, while the same list with that role
removed sorts `"a"` first. -/
theorem claim_C2_counterexample :
    ((sort_mailboxes [⟨"1", "z", some "label", 0⟩, ⟨"2", "a", none, 0⟩]).map
        Mailbox.name = ["z", "a"]) ∧
    ((sort_mailboxes [⟨"1", "z", none, 0⟩, ⟨"2", "a", none, 0⟩]).map
        Mailbox.name = ["a", "z"]) ∧
    lowerStr "label" ∉ canonicalRoles := by
  refine ⟨?_, ?_, by decide⟩ <;>
    simp +decide [sort_mailboxes, List.mergeSort, List.merge, mailboxLe]

/-- Claim C2, amended: a mailbox whose role is present, non-empty and
not canonical (case-insensitively) is placed in Tier 0 with rank 99: its
key sorts strictly after every canonical-role mailbox and strictly before
every mailbox whose role is absent or empty; a present-but-empty role is
keyed exactly as an absent one. -/
theorem claim_C2 (m : Mailbox) (r : String) (hr : m.role = some r) (hne : r ≠ "")
    (hcanon : lowerStr r ∉ canonicalRoles) :
    sort_key m = toLex (0, toLex (99, (lowerStr m.name).data)) ∧
    (∀ c : Mailbox, ∀ rc : String, c.role = some rc → lowerStr rc ∈ canonicalRoles →
      sort_key c < sort_key m) ∧
    (∀ n : Mailbox, n.role = none ∨ n.role = some "" → sort_key m < sort_key n) := by
  have hcanon' : ¬(lowerStr r = "inbox" ∨ lowerStr r = "drafts" ∨ lowerStr r = "sent" ∨
      lowerStr r = "archive" ∨ lowerStr r = "spam" ∨ lowerStr r = "junk" ∨
      lowerStr r = "trash") := by
    simpa [canonicalRoles] using hcanon
  push_neg at hcanon'
  obtain ⟨h1, h2, h3, h4, h5, h6, h7⟩ := hcanon'
  have hro : role_order (lowerStr r) = 99 := by
    unfold role_order
    rw [if_neg h1, if_neg h2, if_neg h3, if_neg h4, if_neg h5, if_neg h6, if_neg h7]
  have hkey : sort_key m = toLex (0, toLex (99, (lowerStr m.name).data)) := by
    unfold sort_key
    rw [hr]
    simp only [if_neg hne, hro]
  refine ⟨hkey, ?_, ?_⟩
  · intro c rc hc hmem
    have hrcne : rc ≠ "" := by
      intro h
      rw [h] at hmem
      exact absurd hmem (by decide)
    have hrc : role_order (lowerStr rc) ≤ 5 := by
      have : lowerStr rc = "inbox" ∨ lowerStr rc = "drafts" ∨ lowerStr rc = "sent" ∨
          lowerStr rc = "archive" ∨ lowerStr rc = "spam" ∨ lowerStr rc = "junk" ∨
          lowerStr rc = "trash" := by simpa [canonicalRoles] using hmem
      rcases this with h | h | h | h | h | h | h <;> rw [h] <;> decide
    rw [hkey]
    have hck : sort_key c = toLex (0, toLex (role_order (lowerStr rc), (lowerStr c.name).data)) := by
      unfold sort_key
      rw [hc]
      simp only [if_neg hrcne]
    rw [hck]
    rw [Prod.Lex.lt_iff]
    right
    refine ⟨rfl, ?_⟩
    rw [Prod.Lex.lt_iff]
    left
    omega
  · intro n hn
    rw [hkey]
    have hn' : sort_key n = toLex (1, toLex (n.sort_order, (lowerStr n.name).data)) := by
      unfold sort_key
      rcases hn with h | h <;> rw [h] <;> simp
    rw [hn', Prod.Lex.lt_iff]
    left
    omega

/-- Witness for claim C2 at a concrete mailbox with role `"Label"`. -/
theorem claim_C2_witness :
    ((⟨"1", "Z", some "Label", 3⟩ : Mailbox).role = some "Label" ∧
     "Label" ≠ "" ∧ lowerStr "Label" ∉ canonicalRoles) ∧
    (sort_key ⟨"1", "Z", some "Label", 3⟩ =
      toLex (0, toLex (99, (lowerStr (⟨"1", "Z", some "Label", 3⟩ : Mailbox).name).data)) ∧
     (∀ c : Mailbox, ∀ rc : String, c.role = some rc → lowerStr rc ∈ canonicalRoles →
       sort_key c < sort_key ⟨"1", "Z", some "Label", 3⟩) ∧
     (∀ n : Mailbox, n.role = none ∨ n.role = some "" →
       sort_key ⟨"1", "Z", some "Label", 3⟩ < sort_key n)) :=
  ⟨⟨rfl, by decide, by decide⟩,
    claim_C2 ⟨"1", "Z", some "Label", 3⟩ "Label" rfl (by decide) (by decide)⟩

/-- Claim C3 as stated is false on the code: a present-but-empty role is
ordered by Python truthiness as if absent, so the mailbox `"b"` with role
`some ""` and `sort_order 5` sorts after the role-less mailbox `"a"` with
`sort_order 1`, although the claim requires every mailbox with a role to
precede every mailbox without one. -/
theorem claim_C3_counterexample :
    sort_mailboxes [⟨"1", "b", some "", 5⟩, ⟨"2", "a", none, 1⟩] =
      [⟨"2", "a", none, 1⟩, ⟨"1", "b", some "", 5⟩] ∧
    (⟨"1", "b", some "", 5⟩ : Mailbox).role ≠ none ∧
    (⟨"2", "a", none, 1⟩ : Mailbox).role = none := by
  refine ⟨?_, by decide, by decide⟩
  simp +decide [sort_mailboxes, List.mergeSort, List.merge, mailboxLe]

/-- Claim C3, amended: `sort_mailboxes` returns a permutation of its
input ordered by the two-tier key, where Tier 0 is a present *non-empty*
role (an empty-string role falls to Tier 1 like an absent one): within
Tier 0 canonical role rank (inbox < drafts < sent < archive < spam = junk
< trash, other non-empty roles below all canonical), ties by
case-insensitive name; within Tier 1 `sort_order` ascending then
case-insensitive name. -/
theorem claim_C3 (ms : List Mailbox) :
    (sort_mailboxes ms).Perm ms ∧
    (sort_mailboxes ms).Pairwise (fun a b => claimKey a ≤ claimKey b) := by
  refine ⟨List.mergeSort_perm _ _, ?_⟩
  have hs := List.sorted_mergeSort mailboxLe_trans mailboxLe_total ms
  exact hs.imp (fun h => (claimKey_le_iff _ _).mpr (of_decide_eq_true h))

end FastmailTui
